import Mathlib

/-!
A shallow embedding of the `tmx` tile-map-to-geometry compiler (`gfx.go`,
`objectgroup.go`, and the polygon/polyline point parser), together with
theorems settling the specification claims about it.

Conventions of the embedding:
* Go `float32`/`float64` arithmetic is modelled exactly over `ℚ`
  (the claims under study are exact-arithmetic statements about the
  formulas the code computes; rounding is out of scope).
* The `lmath` matrices act on row vectors (`v.TransformMat4 m = v * m`),
  so in a product `a.mul b` the factor `a` acts on the vector first.
* Go maps used for lookup (`layer.Tiles`, `tsImages`, the result maps)
  are modelled as association lists with first-match lookup; Go's
  `m[k] = v` assignment is `updateAssoc` (replace first binding, else
  append).
-/

/-- A 3-vector with exact rational components, modelling `lmath.Vec3` /
`gfx.Vec3` values as used by the compiler. -/
structure Vec3Q where
  x : ℚ
  y : ℚ
  z : ℚ
deriving DecidableEq

/-- A 3×3 matrix: the linear part of the `lmath.Mat4` orientation
transforms set up in `init` (all four have no translation component and
integer entries, so the 3×3 integer linear part is the whole transform). -/
structure M3 where
  m00 : ℤ
  m01 : ℤ
  m02 : ℤ
  m10 : ℤ
  m11 : ℤ
  m12 : ℤ
  m20 : ℤ
  m21 : ℤ
  m22 : ℤ
deriving DecidableEq

/-- Matrix product, `a.mul b = a * b`.  With the row-vector convention
`v * (a * b) = (v * a) * b`: the left factor acts on the vector first. -/
def M3.mul (a b : M3) : M3 where
  m00 := a.m00 * b.m00 + a.m01 * b.m10 + a.m02 * b.m20
  m01 := a.m00 * b.m01 + a.m01 * b.m11 + a.m02 * b.m21
  m02 := a.m00 * b.m02 + a.m01 * b.m12 + a.m02 * b.m22
  m10 := a.m10 * b.m00 + a.m11 * b.m10 + a.m12 * b.m20
  m11 := a.m10 * b.m01 + a.m11 * b.m11 + a.m12 * b.m21
  m12 := a.m10 * b.m02 + a.m11 * b.m12 + a.m12 * b.m22
  m20 := a.m20 * b.m00 + a.m21 * b.m10 + a.m22 * b.m20
  m21 := a.m20 * b.m01 + a.m21 * b.m11 + a.m22 * b.m21
  m22 := a.m20 * b.m02 + a.m21 * b.m12 + a.m22 * b.m22

/-- Apply a matrix to a row vector: `v * m` (`Vec3.TransformMat4` for a
matrix with no translation part). -/
def applyM3 (v : Vec3Q) (m : M3) : Vec3Q where
  x := v.x * (m.m00 : ℚ) + v.y * (m.m10 : ℚ) + v.z * (m.m20 : ℚ)
  y := v.x * (m.m01 : ℚ) + v.y * (m.m11 : ℚ) + v.z * (m.m21 : ℚ)
  z := v.x * (m.m02 : ℚ) + v.y * (m.m12 : ℚ) + v.z * (m.m22 : ℚ)

/-- The identity transform (`lmath.Mat4Identity`). -/
def idM3 : M3 := ⟨1, 0, 0, 0, 1, 0, 0, 0, 1⟩

/-- `cw90`: `Mat4FromAxisAngle((0,1,0), 90°, CoordSysZUpRight)` — a 90°
rotation about the vertical axis `(0,1,0)`; as a map on row vectors it
sends `(x,y,z)` to `(z, y, -x)`. -/
def cw90 : M3 := ⟨0, 0, -1, 0, 1, 0, 1, 0, 0⟩

/-- `cwn90`: `Mat4FromAxisAngle((0,1,0), -90°, CoordSysZUpRight)` — the
inverse rotation, sending `(x,y,z)` to `(-z, y, x)`. -/
def cwn90 : M3 := ⟨0, 0, 1, 0, 1, 0, -1, 0, 0⟩

/-- `horizFlip`: `Mat4FromAxisAngle((0,0,1), 180°, CoordSysZUpRight)` — the
horizontal mirror, sending `(x,y,z)` to `(-x, -y, z)`. -/
def horizFlip : M3 := ⟨-1, 0, 0, 0, -1, 0, 0, 0, 1⟩

/-- `vertFlip`: `Mat4FromAxisAngle((1,0,0), 180°, CoordSysZUpRight)` — the
vertical mirror, sending `(x,y,z)` to `(x, -y, -z)`. -/
def vertFlip : M3 := ⟨1, 0, 0, 0, -1, 0, 0, 0, -1⟩

/-- The orientation transform composed by `Load` from the three decoded
flag bits, translated branch-for-branch from `gfx.go` lines 239–262:
starting from `flip = Mat4Identity`, each step is `flip = primitive.Mul(flip)`. -/
def flipFor (diagFlipped horizFlipped vertFlipped : Bool) : M3 :=
  let flip := idM3
  if diagFlipped then
    if horizFlipped && vertFlipped then
      let flip := cw90.mul flip
      horizFlip.mul flip
    else if horizFlipped then
      cw90.mul flip
    else if vertFlipped then
      cwn90.mul flip
    else
      let flip := horizFlip.mul flip
      cw90.mul flip
  else
    let flip := if horizFlipped then horizFlip.mul flip else flip
    if vertFlipped then vertFlip.mul flip else flip

/-- The spec's fixed 8-case orientation table: each entry is built by
folding its listed primitives, in order, with the spec's composition
convention `newTransform = primitive * accumulated` (the first listed
primitive is the first composed onto the raw quad's identity transform,
e.g. "mirror composed with +90° rotation" is `cw90.mul horizFlip`). -/
def specFlipTable (d h v : Bool) : M3 :=
  match d, h, v with
  | false, false, false => idM3
  | false, true,  false => horizFlip
  | false, false, true  => vertFlip
  | false, true,  true  => vertFlip.mul horizFlip
  | true,  false, false => cw90.mul horizFlip
  | true,  true,  false => cw90
  | true,  false, true  => cwn90
  | true,  true,  true  => horizFlip.mul cw90

/-- A UV texture coordinate (`gfx.TexCoord`). -/
structure TexCoordQ where
  u : ℚ
  v : ℚ
deriving DecidableEq

/-- An integer pixel rectangle (`image.Rectangle`). -/
structure RectI where
  minX : ℤ
  minY : ℤ
  maxX : ℤ
  maxY : ℤ
deriving DecidableEq

/-- `Rectangle.Dx`. -/
def RectI.dX (r : RectI) : ℤ := r.maxX - r.minX

/-- `Rectangle.Dy`. -/
def RectI.dY (r : RectI) : ℤ := r.maxY - r.minY

/-- A mesh as the compiler uses it: the vertex positions plus the single
UV channel (`TexCoords[0].Slice`; the lazy creation of that channel on
first use is dropped, the channel is simply a list). -/
structure Mesh where
  vertices : List Vec3Q
  texcoords : List TexCoordQ
deriving DecidableEq

/-- `appendCard` from `gfx.go` lines 104–143: appends one textured quad
(two triangles, 6 vertices, 6 UV pairs) to the mesh.  The source computes
`halfTexUnitY` as `1.0 / w` — dividing by the atlas *width* — exactly as
written there. -/
def appendCard (m : Mesh) (l r b t depth : ℚ) (rect tex : RectI) : Mesh :=
  let w : ℚ := (tex.dX : ℚ)
  let h : ℚ := (tex.dY : ℚ)
  let halfTexUnitX := 1 / w
  let halfTexUnitY := 1 / w
  let u0 := ((rect.minX : ℚ) / w) + halfTexUnitX
  let u1 := ((rect.maxX : ℚ) / w) - halfTexUnitX
  let v0 := ((rect.minY : ℚ) / h) + halfTexUnitY
  let v1 := ((rect.maxY : ℚ) / h) - halfTexUnitY
  { vertices := m.vertices ++
      [⟨l, depth, t⟩, ⟨l, depth, b⟩, ⟨r, depth, b⟩,
       ⟨l, depth, t⟩, ⟨r, depth, b⟩, ⟨r, depth, t⟩]
    texcoords := m.texcoords ++
      [⟨u0, v0⟩, ⟨u0, v1⟩, ⟨u1, v1⟩,
       ⟨u0, v0⟩, ⟨u1, v1⟩, ⟨u1, v0⟩] }

/-- Grid coordinate (the Go `Coord{X, Y int}` map key); `Load` only looks
up cells with `0 ≤ x < width`, `0 ≤ y < height`. -/
structure Coord where
  x : Nat
  y : Nat
deriving DecidableEq

/-- The tileset fields `Load` reads.  `imageSource` holds the base
filename of the atlas image (`filepath.Base(tileset.Image.Source)`). -/
structure Tileset where
  firstGid : Nat
  width : ℤ
  height : ℤ
  margin : ℤ
  spacing : ℤ
  imageSource : String
deriving DecidableEq

/-- A map layer: its name and the sparse cell-to-packed-GID mapping. -/
structure Layer where
  name : String
  tiles : List (Coord × Nat)
deriving DecidableEq

/-- The map fields `Load` reads. -/
structure TmxMap where
  width : Nat
  height : Nat
  tileWidth : ℤ
  tileHeight : ℤ
  layers : List Layer
  tilesets : List Tileset
deriving DecidableEq

/-- A decoded atlas image: only its pixel bounds matter to the compiler
(`rgba.Bounds()`). -/
structure Atlas where
  width : ℤ
  height : ℤ
deriving DecidableEq

/-- First-match association-list lookup, modelling Go map read `l[k]`. -/
def lookupA {α β : Type} [DecidableEq α] : List (α × β) → α → Option β
  | [], _ => none
  | (k1, v1) :: rest, k => if k1 = k then some v1 else lookupA rest k

/-- Association-list store, modelling Go map write `l[k] = v`: replaces
the first binding of `k`, else appends a new one. -/
def updateAssoc {α β : Type} [DecidableEq α] : List (α × β) → α → β → List (α × β)
  | [], k, v => [(k, v)]
  | (k1, v1) :: rest, k, v =>
      if k1 = k then (k, v) :: rest else (k1, v1) :: updateAssoc rest k v

/-- Modelled from the spec: the packed-GID bit layout (the `FLIPPED_*_FLAG`
constants live in a parser file that is not under `src/`): bit 31 =
vertical flip, bit 30 = horizontal flip, bit 29 = diagonal flip, bits
0–28 the base tile id. `gidBase` clears the three flag bits. -/
def gidBase (gid : Nat) : Nat := gid % 2 ^ 29

/-- `(gid & FLIPPED_DIAGONALLY_FLAG) > 0` — bit 29 of the packed GID. -/
def gidDiag (gid : Nat) : Bool := gid.testBit 29

/-- `(gid & FLIPPED_HORIZONTALLY_FLAG) > 0` — bit 30 of the packed GID. -/
def gidHoriz (gid : Nat) : Bool := gid.testBit 30

/-- `(gid & FLIPPED_VERTICALLY_FLAG) > 0` — bit 31 of the packed GID. -/
def gidVert (gid : Nat) : Bool := gid.testBit 31

/-- One candidate-selection step of the spec-modelled `FindTileset`
fold: keep the owning candidate with the largest first-GID seen so far. -/
def pickTileset (gid : Nat) (best : Option Tileset) (ts : Tileset) : Option Tileset :=
  if ts.firstGid ≤ gidBase gid then
    match best with
    | none => some ts
    | some b => if b.firstGid ≤ ts.firstGid then some ts else some b
  else best

/-- Modelled from the spec: `Map.FindTileset` (its file is not under
`src/`): "the tileset owning a GID is the one with the largest first-GID
that is ≤ the GID's base index"; `none` when no tileset owns the GID. -/
def findTileset (tilesets : List Tileset) (gid : Nat) : Option Tileset :=
  tilesets.foldl (pickTileset gid) none

/-- Modelled from the spec: `Map.TilesetRect` (its file is not under
`src/`), per §4.1: columns-per-row = floor((atlasWidth − 2·margin +
spacing) / (tileWidth + spacing)); row = index / columns, col = index %
columns; origin = (margin + col·(tileWidth+spacing), margin +
row·(tileHeight+spacing)); size tileWidth × tileHeight.  The requested
half-texel inset applies to the UV (not pixel) rectangle and is performed
by `appendCard`, so it does not appear here. -/
def tilesetRect (ts : Tileset) (atlasWidth _atlasHeight : ℤ) (gid : Nat) : RectI :=
  let columns : ℤ := (atlasWidth - 2 * ts.margin + ts.spacing) / (ts.width + ts.spacing)
  let idx : ℤ := (gidBase gid : ℤ) - (ts.firstGid : ℤ)
  let row := idx / columns
  let col := idx % columns
  let x0 := ts.margin + col * (ts.width + ts.spacing)
  let y0 := ts.margin + row * (ts.height + ts.spacing)
  ⟨x0, y0, x0 + ts.width, y0 + ts.height⟩

/-- The tmx mesh configuration (`Config` in `gfx.go`). -/
structure Config where
  layerOffset : ℚ
  tileOffset : ℚ
deriving DecidableEq

/-- The default configuration `Load` substitutes for a nil config:
`LayerOffset: 0.001, TileOffset: 0.000001`. -/
def defaultConfig : Config := ⟨1 / 1000, 1 / 1000000⟩

/-- One per-atlas textured object: the mesh plus its texture (identified
by the atlas filename; the fixed render state — clamped sampling, no face
culling, alpha-to-coverage — carries no data and is omitted). -/
structure TexObject where
  texture : String
  mesh : Mesh
deriving DecidableEq

/-- A fresh `gfx.NewObject` holding one empty mesh and the given texture. -/
def newTexObject (img : String) : TexObject :=
  ⟨img, ⟨[], []⟩⟩

/-- The placement translation of `Load` (lines 264–269):`x`-component
`x·m.TileWidth + halfWidth`, vertical component `layerOffset +
tileOffset`, `z`-component `(m.Height − y)·m.TileHeight − halfHeight`,
where `halfWidth`/`halfHeight` are half the TILESET tile dimensions. -/
def moveVec (m : TmxMap) (ts : Tileset) (lOff tOff : ℚ) (x y : Nat) : Vec3Q :=
  ⟨(x : ℚ) * (m.tileWidth : ℚ) + (ts.width : ℚ) / 2,
   lOff + tOff,
   ((m.height : ℚ) - (y : ℚ)) * (m.tileHeight : ℚ) - (ts.height : ℚ) / 2⟩

/-- Trace record of one emitted tile: which cell it came from, the values
the placement was computed from, and the translation actually applied. -/
structure TileEmit where
  layer : Nat
  x : Nat
  y : Nat
  gid : Nat
  img : String
  ts : Tileset
  lOff : ℚ
  tOff : ℚ
  move : Vec3Q
deriving DecidableEq

/-- The per-layer mutable state of `Load`: the `texObjects` map, the
running `tileOffset` accumulator, and the trace of emitted tiles. -/
structure LayerState where
  objs : List (String × TexObject)
  tileOffset : ℚ
  emits : List TileEmit
deriving DecidableEq

/-- One grid-cell iteration of `Load` (lines 182–280): look up the cell's
GID, resolve the owning tileset, skip if its atlas image was not
supplied, get-or-create the per-atlas object, append the quad, compose
the flip transform, compute the translation, and transform the six just-
appended vertices in place. -/
def cellStep (m : TmxMap) (c : Config) (imgs : List (String × Atlas))
    (li : Nat) (lOff : ℚ) (layer : Layer) (st : LayerState) (xy : Coord) :
    LayerState :=
  match lookupA layer.tiles xy with
  | none => st
  | some gid =>
    match findTileset m.tilesets gid with
    | none => st
    | some ts =>
      match lookupA imgs ts.imageSource with
      | none => st
      | some rgba =>
        let obj := (lookupA st.objs ts.imageSource).getD (newTexObject ts.imageSource)
        let r := tilesetRect ts rgba.width rgba.height gid
        let halfWidth : ℚ := (ts.width : ℚ) / 2
        let halfHeight : ℚ := (ts.height : ℚ) / 2
        let cardStart := obj.mesh.vertices.length
        let mesh1 := appendCard obj.mesh (-halfWidth) halfWidth (-halfHeight) halfHeight 0
          r ⟨0, 0, rgba.width, rgba.height⟩
        let flip := flipFor (gidDiag gid) (gidHoriz gid) (gidVert gid)
        let move := moveVec m ts lOff st.tileOffset xy.x xy.y
        let mesh2 : Mesh :=
          { vertices := mesh1.vertices.take cardStart ++
              (mesh1.vertices.drop cardStart).map
                (fun p => ⟨(applyM3 p flip).x + move.x,
                           (applyM3 p flip).y + move.y,
                           (applyM3 p flip).z + move.z⟩)
            texcoords := mesh1.texcoords }
        { objs := updateAssoc st.objs ts.imageSource { obj with mesh := mesh2 }
          tileOffset := st.tileOffset - c.tileOffset
          emits := st.emits ++
            [{ layer := li, x := xy.x, y := xy.y, gid := gid,
               img := ts.imageSource, ts := ts,
               lOff := lOff, tOff := st.tileOffset, move := move }] }

/-- The cell visit order of `Load`: outer loop over `x`, inner loop over
`y` — the fixed column-major raster order. -/
def cells (w h : Nat) : List Coord :=
  (List.range w).flatMap fun x => (List.range h).map fun y => ⟨x, y⟩

/-- One whole layer of `Load`: fold `cellStep` over the raster order,
starting from an empty `texObjects` map and `tileOffset = 0`. -/
def processLayer (m : TmxMap) (c : Config) (imgs : List (String × Atlas))
    (li : Nat) (lOff : ℚ) (layer : Layer) : LayerState :=
  (cells m.width m.height).foldl (cellStep m c imgs li lOff layer) ⟨[], 0, []⟩

/-- The output of `Load`: the layer-name-keyed result map plus the trace
of all emitted tiles in emission order. -/
structure LoadOut where
  layers : List (String × List (String × TexObject))
  emits : List TileEmit
deriving DecidableEq

/-- The layer loop of `Load`: process each layer, record its `texObjects`
under the layer's name (Go map assignment — a later layer with the same
name overwrites), then decrease `layerOffset` by `c.LayerOffset`. -/
def goLayers (m : TmxMap) (c : Config) (imgs : List (String × Atlas)) :
    List Layer → Nat → ℚ → List (String × List (String × TexObject)) → LoadOut
  | [], _, _, acc => ⟨acc, []⟩
  | layer :: rest, li, lOff, acc =>
    let st := processLayer m c imgs li lOff layer
    let out := goLayers m c imgs rest (li + 1) (lOff - c.layerOffset)
      (updateAssoc acc layer.name st.objs)
    ⟨out.layers, st.emits ++ out.emits⟩

/-- `Load` from `gfx.go`: substitute the default config for a nil one,
then run the layer loop from `layerOffset = 0`. -/
def load (m : TmxMap) (c : Option Config) (imgs : List (String × Atlas)) : LoadOut :=
  goLayers m (c.getD defaultConfig) imgs m.layers 0 0 []

/-- The emitted tiles of one layer, in emission order. -/
def layerEmits (out : LoadOut) (li : Nat) : List TileEmit :=
  out.emits.filter fun e => e.layer = li

/-- The condition under which `Load` emits geometry for a cell: the cell
has a tile, a tileset owns its GID, and that tileset's atlas image was
supplied by the caller. -/
def cellVisible (m : TmxMap) (imgs : List (String × Atlas)) (layer : Layer)
    (xy : Coord) : Bool :=
  match lookupA layer.tiles xy with
  | none => false
  | some gid =>
    match findTileset m.tilesets gid with
    | none => false
    | some ts => (lookupA imgs ts.imageSource).isSome

/-- Vertex count of the mesh batch keyed by `k` (0 when the batch does
not exist yet). -/
def vcount (objs : List (String × TexObject)) (k : String) : Nat :=
  match lookupA objs k with
  | none => 0
  | some o => o.mesh.vertices.length

/-- Everything the layer fold guarantees about the `k`-th emitted tile of
a layer processed at layer index `li` with base vertical offset `lOff`. -/
def emitOK (m : TmxMap) (c : Config) (imgs : List (String × Atlas))
    (li : Nat) (lOff : ℚ) (k : Nat) (e : TileEmit) : Prop :=
  e.layer = li ∧
  e.lOff = lOff ∧
  e.tOff = -(k : ℚ) * c.tileOffset ∧
  e.move = moveVec m e.ts e.lOff e.tOff e.x e.y ∧
  findTileset m.tilesets e.gid = some e.ts ∧
  e.img = e.ts.imageSource ∧
  (lookupA imgs e.img).isSome = true

/-- The layer-fold invariant: the running `tileOffset` accumulator equals
minus (number of tiles emitted so far) times `c.TileOffset`, and every
emitted tile satisfies `emitOK` at its emission index. -/
def layerInv (m : TmxMap) (c : Config) (imgs : List (String × Atlas))
    (li : Nat) (lOff : ℚ) (st : LayerState) : Prop :=
  st.tileOffset = -(st.emits.length : ℚ) * c.tileOffset ∧
  ∀ k e, st.emits[k]? = some e → emitOK m c imgs li lOff k e

/-- The concatenated emission trace of a list of layers processed
starting at layer index `li` and base vertical offset `lOff`: the
explicit form of what the layer loop of `Load` emits. -/
def layersEmits (m : TmxMap) (c : Config) (imgs : List (String × Atlas)) :
    List Layer → Nat → ℚ → List TileEmit
  | [], _, _ => []
  | layer :: rest, li, lOff =>
      (processLayer m c imgs li lOff layer).emits
        ++ layersEmits m c imgs rest (li + 1) (lOff - c.layerOffset)

/-- The index (from the front) and value of the last layer in the list
bearing the given name. -/
def lastWithIdx (name : String) : List Layer → Option (Nat × Layer)
  | [] => none
  | layer :: rest =>
    match lastWithIdx name rest with
    | some (j, l2) => some (j + 1, l2)
    | none => if layer.name = name then some (0, layer) else none

/-- An association list binds each key at most once (the Go-map shape
that `updateAssoc` preserves). -/
def uniqKeys {α β : Type} [DecidableEq α] (l : List (α × β)) : Prop :=
  ∀ k : α, l.countP (fun p => p.1 = k) ≤ 1

/-- A polygon/polyline point (`Point` in the object parser; Go `int`). -/
structure Point where
  x : ℤ
  y : ℤ
deriving DecidableEq

/-- Go `strings.Split(s, sep)` for a single-character separator: split at
every occurrence of `sep`, keeping empty fields (`Split("", sep) = [""]`). -/
def splitChar (sep : Char) : List Char → List (List Char)
  | [] => [[]]
  | c :: rest =>
    let r := splitChar sep rest
    if c = sep then [] :: r
    else
      match r with
      | h :: t => (c :: h) :: t
      | [] => [[c]]

/-- The whitespace recognised by Go `strings.TrimSpace` (restricted to
the ASCII whitespace relevant to point lists). -/
def isSpaceChar (c : Char) : Bool :=
  c == ' ' || c == '\t' || c == '\n' || c == '\r'

/-- Go `strings.TrimSpace`: drop leading and trailing whitespace. -/
def trimChars (l : List Char) : List Char :=
  ((l.dropWhile isSpaceChar).reverse.dropWhile isSpaceChar).reverse

/-- The value of an all-digit numeral, or `none` when the string is empty
or contains a non-digit. -/
def digitsVal (l : List Char) : Option Nat :=
  if l = [] then none
  else
    l.foldl
      (fun acc c =>
        match acc with
        | none => none
        | some n => if c.isDigit then some (n * 10 + (c.toNat - '0'.toNat)) else none)
      (some 0)

/-- Go `strconv.Atoi` as `toPoints` uses it: the error is discarded, so a
syntax error yields the zero value `Atoi` returns alongside it.  (The
clamped value returned with `ErrRange` on 64-bit overflow is not
modelled; the claims under study use in-range inputs.) -/
def goAtoi (l : List Char) : ℤ :=
  match l with
  | '-' :: rest =>
    match digitsVal rest with
    | some n => -(n : ℤ)
    | none => 0
  | '+' :: rest =>
    match digitsVal rest with
    | some n => (n : ℤ)
    | none => 0
  | _ =>
    match digitsVal l with
    | some n => (n : ℤ)
    | none => 0

/-- One `"x,y"` pair of `xmlPolyset.toPoints`: the pair is kept only when
the trimmed text splits on `','` into exactly two fields
(`len(xy) == 2`); each kept field is parsed by `Atoi` with the error
ignored. -/
def parsePair (pair : List Char) : Option Point :=
  match splitChar ',' (trimChars pair) with
  | [sx, sy] => some ⟨goAtoi (trimChars sx), goAtoi (trimChars sy)⟩
  | _ => none

/-- `xmlPolyset.toPoints` from the object parser: split the `points`
attribute on spaces and collect, in order, the pairs `parsePair` keeps. -/
def toPoints (data : String) : List Point :=
  (splitChar ' ' data.data).filterMap parsePair

/-- The spec's end-to-end example tileset: first-GID 1, 32×32 tiles, no
margin or spacing, atlas image `atlas.png`. -/
def exTileset32 : Tileset := ⟨1, 32, 32, 0, 0, "atlas.png"⟩

/-- The spec's end-to-end example layer `ground`: cell (0,0) = GID 1,
cell (1,0) empty. -/
def exLayer32 : Layer := ⟨"ground", [(⟨0, 0⟩, 1)]⟩

/-- The spec's end-to-end example map: 2×1 cells of 32×32-pixel tiles. -/
def exMap32 : TmxMap := ⟨2, 1, 32, 32, [exLayer32], [exTileset32]⟩

/-- The supplied 64×32 atlas of the end-to-end example. -/
def exImgs32 : List (String × Atlas) := [("atlas.png", ⟨64, 32⟩)]

/-- A tileset whose 16×16 tile size differs from its map's 32×32 tile
size (exercising the `halfWidth`/`halfHeight` placement terms). -/
def exTilesetC3 : Tileset := ⟨1, 16, 16, 0, 0, "c3.png"⟩

/-- A 1×1 map with 32×32 map tiles but a 16×16-tile tileset. -/
def exMapC3 : TmxMap := ⟨1, 1, 32, 32, [⟨"ground", [(⟨0, 0⟩, 1)]⟩], [exTilesetC3]⟩

/-- The supplied 32×16 atlas for `exMapC3`. -/
def exImgsC3 : List (String × Atlas) := [("c3.png", ⟨32, 16⟩)]

/-- A layer with two occupied cells, for the successive-offset claims. -/
def exLayerC4 : Layer := ⟨"ground", [(⟨0, 0⟩, 1), (⟨1, 0⟩, 2)]⟩

/-- A 2×1 map whose single layer holds two tiles. -/
def exMapC4 : TmxMap := ⟨2, 1, 32, 32, [exLayerC4], [exTileset32]⟩

/-- A second tileset (first-GID 3) whose atlas `b.png` is never supplied. -/
def exTileset6b : Tileset := ⟨3, 32, 32, 0, 0, "b.png"⟩

/-- A layer referencing both tilesets: cells (0,0) and (0,1) reference
the first tileset, cell (1,0) the second. -/
def exLayer6 : Layer := ⟨"ground", [(⟨0, 0⟩, 1), (⟨1, 0⟩, 3), (⟨0, 1⟩, 2)]⟩

/-- A 2×2 map with two tilesets, of which only the first has a supplied
atlas image. -/
def exMap6 : TmxMap := ⟨2, 2, 32, 32, [exLayer6], [exTileset32, exTileset6b]⟩

/-- A 1×1 map with one layer and one tileset whose image is never
supplied. -/
def exMap7 : TmxMap := ⟨1, 1, 32, 32, [⟨"ground", [(⟨0, 0⟩, 1)]⟩], [⟨1, 32, 32, 0, 0, "x.png"⟩]⟩

/-- First of two layers sharing the name `dup` (this one holds a tile). -/
def exLayer10a : Layer := ⟨"dup", [(⟨0, 0⟩, 1)]⟩

/-- Second of two layers sharing the name `dup` (this one is empty). -/
def exLayer10b : Layer := ⟨"dup", []⟩

/-- A 1×1 map with two layers of the same name. -/
def exMap10 : TmxMap := ⟨1, 1, 32, 32, [exLayer10a, exLayer10b], [exTileset32]⟩

/-- The tile `Load` emits for cell (0,0) of the end-to-end example. -/
def emit32 : TileEmit := ⟨0, 0, 0, 1, "atlas.png", exTileset32, 0, 0, ⟨16, 0, 16⟩⟩

/-- The second tile `Load` emits for `exMapC4` (at cell (1,0)). -/
def emitC4b : TileEmit :=
  ⟨0, 1, 0, 2, "atlas.png", exTileset32, 0, -(1/1000000), ⟨48, -(1/1000000), 16⟩⟩

/-- C2: the orientation transform composed from the decoded flag bits
(d = diagonal, h = horizontal, v = vertical) equals the fixed 8-case
table of the spec, under the composition convention
`newTransform = primitive * accumulated` (primitives closest to the raw
quad act first). -/
theorem flip_transform_matches_spec_table :
    ∀ d h v : Bool, flipFor d h v = specFlipTable d h v := by
  decide

theorem appendCard_vertices_length (msh : Mesh) (l r b t depth : ℚ) (rect tex : RectI) :
    (appendCard msh l r b t depth rect tex).vertices.length = msh.vertices.length + 6 := by
  simp [appendCard]

theorem appendCard_texcoords_length (msh : Mesh) (l r b t depth : ℚ) (rect tex : RectI) :
    (appendCard msh l r b t depth rect tex).texcoords.length = msh.texcoords.length + 6 := by
  simp [appendCard]

theorem lookupA_updateAssoc_self {α β : Type} [DecidableEq α]
    (l : List (α × β)) (k : α) (v : β) :
    lookupA (updateAssoc l k v) k = some v := by
  induction l with
  | nil => simp [updateAssoc, lookupA]
  | cons p rest ih =>
    by_cases h : p.1 = k <;> simp [updateAssoc, lookupA, h, ih]

theorem mem_updateAssoc {α β : Type} [DecidableEq α]
    {l : List (α × β)} {k : α} {v : β} {p : α × β}
    (hp : p ∈ updateAssoc l k v) : p = (k, v) ∨ p ∈ l := by
  induction l with
  | nil => simpa [updateAssoc] using hp
  | cons q rest ih =>
    by_cases h : q.1 = k
    · simp only [updateAssoc, if_pos h, List.mem_cons] at hp
      rcases hp with h1 | h2
      · exact Or.inl h1
      · exact Or.inr (List.mem_cons_of_mem _ h2)
    · simp only [updateAssoc, if_neg h, List.mem_cons] at hp
      rcases hp with h1 | h2
      · exact Or.inr (h1 ▸ List.mem_cons_self _ _)
      · rcases ih h2 with h3 | h4
        · exact Or.inl h3
        · exact Or.inr (List.mem_cons_of_mem _ h4)

/-- Case analysis of one `Load` cell iteration: either the cell is
skipped and the state is untouched, or the cell is visible and exactly
one tile is emitted — the trace grows by one record carrying the current
offsets and translation, `tileOffset` drops by `c.TileOffset`, and the
owning batch's vertex count grows by exactly 6. -/
theorem cellStep_cases (m : TmxMap) (c : Config) (imgs : List (String × Atlas))
    (li : Nat) (lOff : ℚ) (layer : Layer) (st : LayerState) (xy : Coord) :
    (cellStep m c imgs li lOff layer st xy = st ∧ cellVisible m imgs layer xy = false) ∨
    (∃ gid ts,
      lookupA layer.tiles xy = some gid ∧
      findTileset m.tilesets gid = some ts ∧
      (lookupA imgs ts.imageSource).isSome = true ∧
      cellVisible m imgs layer xy = true ∧
      (cellStep m c imgs li lOff layer st xy).emits
        = st.emits ++ [⟨li, xy.x, xy.y, gid, ts.imageSource, ts, lOff, st.tileOffset,
            moveVec m ts lOff st.tileOffset xy.x xy.y⟩] ∧
      (cellStep m c imgs li lOff layer st xy).tileOffset = st.tileOffset - c.tileOffset ∧
      vcount (cellStep m c imgs li lOff layer st xy).objs ts.imageSource
        = vcount st.objs ts.imageSource + 6) := by
  cases h1 : lookupA layer.tiles xy with
  | none => exact Or.inl ⟨by simp [cellStep, h1], by simp [cellVisible, h1]⟩
  | some gid =>
    cases h2 : findTileset m.tilesets gid with
    | none => exact Or.inl ⟨by simp [cellStep, h1, h2], by simp [cellVisible, h1, h2]⟩
    | some ts =>
      cases h3 : lookupA imgs ts.imageSource with
      | none => exact Or.inl ⟨by simp [cellStep, h1, h2, h3], by simp [cellVisible, h1, h2, h3]⟩
      | some rgba =>
        refine Or.inr ⟨gid, ts, rfl, h2, by simp [h3], by simp [cellVisible, h1, h2, h3], ?_, ?_, ?_⟩
        · simp [cellStep, h1, h2, h3]
        · simp [cellStep, h1, h2, h3]
        · cases h4 : lookupA st.objs ts.imageSource with
          | none =>
            simp [cellStep, h1, h2, h3, h4, vcount, lookupA_updateAssoc_self,
              appendCard_vertices_length, newTexObject]
          | some o =>
            simp [cellStep, h1, h2, h3, h4, vcount, lookupA_updateAssoc_self,
              appendCard_vertices_length]

theorem cellStep_inv {m : TmxMap} {c : Config} {imgs : List (String × Atlas)}
    {li : Nat} {lOff : ℚ} {layer : Layer} {st : LayerState} (xy : Coord)
    (h : layerInv m c imgs li lOff st) :
    layerInv m c imgs li lOff (cellStep m c imgs li lOff layer st xy) := by
  rcases cellStep_cases m c imgs li lOff layer st xy with
    ⟨heq, _⟩ | ⟨gid, ts, h1, h2, h3, hvis, hem, hoff, _⟩
  · rwa [heq]
  · obtain ⟨hto, hks⟩ := h
    refine ⟨?_, ?_⟩
    · rw [hoff, hem, hto]
      simp only [List.length_append, List.length_singleton]
      push_cast
      ring
    · intro k e hk
      rw [hem] at hk
      rcases Nat.lt_or_ge k st.emits.length with hlt | hge
      · rw [List.getElem?_append_left hlt] at hk
        exact hks k e hk
      · rcases Nat.eq_or_lt_of_le hge with heq2 | hgt
        · subst heq2
          rw [List.getElem?_concat_length] at hk
          cases hk
          exact ⟨rfl, rfl, by rw [hto], rfl, h2, rfl, h3⟩
        · rw [List.getElem?_append_right hge,
            List.getElem?_eq_none (by simp; omega)] at hk
          cases hk

theorem foldl_layerInv {m : TmxMap} {c : Config} {imgs : List (String × Atlas)}
    {li : Nat} {lOff : ℚ} {layer : Layer} (cl : List Coord) (st : LayerState)
    (h : layerInv m c imgs li lOff st) :
    layerInv m c imgs li lOff (cl.foldl (cellStep m c imgs li lOff layer) st) := by
  induction cl generalizing st with
  | nil => exact h
  | cons xy rest ih => exact ih _ (cellStep_inv xy h)

theorem processLayer_inv (m : TmxMap) (c : Config) (imgs : List (String × Atlas))
    (li : Nat) (lOff : ℚ) (layer : Layer) :
    layerInv m c imgs li lOff (processLayer m c imgs li lOff layer) := by
  refine foldl_layerInv _ _ ⟨by simp, ?_⟩
  intro k e hk
  simp at hk

theorem cellStep_emits_proj {m : TmxMap} {c : Config} {imgs : List (String × Atlas)}
    {li : Nat} {lOff : ℚ} {layer : Layer} (st : LayerState) (xy : Coord) :
    (cellStep m c imgs li lOff layer st xy).emits.map (fun e => Coord.mk e.x e.y)
      = st.emits.map (fun e => Coord.mk e.x e.y)
        ++ if cellVisible m imgs layer xy then [xy] else [] := by
  rcases cellStep_cases m c imgs li lOff layer st xy with
    ⟨heq, hvis⟩ | ⟨gid, ts, _, _, _, hvis, hem, _, _⟩
  · rw [heq, hvis]
    simp
  · rw [hem, hvis]
    simp

theorem foldl_emits_proj {m : TmxMap} {c : Config} {imgs : List (String × Atlas)}
    {li : Nat} {lOff : ℚ} {layer : Layer} (cl : List Coord) (st : LayerState) :
    ((cl.foldl (cellStep m c imgs li lOff layer) st).emits.map (fun e => Coord.mk e.x e.y))
      = st.emits.map (fun e => Coord.mk e.x e.y)
        ++ cl.filter (cellVisible m imgs layer) := by
  induction cl generalizing st with
  | nil => simp
  | cons xy rest ih =>
    rw [List.foldl_cons, ih, cellStep_emits_proj]
    by_cases h : cellVisible m imgs layer xy <;>
      simp [h, List.filter_cons]

/-- The per-layer emission order: the (x, y) cells of the emitted tiles,
in emission order, are exactly the visible cells of the fixed
column-major raster enumeration, in raster order. -/
theorem processLayer_emits_proj (m : TmxMap) (c : Config) (imgs : List (String × Atlas))
    (li : Nat) (lOff : ℚ) (layer : Layer) :
    (processLayer m c imgs li lOff layer).emits.map (fun e => Coord.mk e.x e.y)
      = (cells m.width m.height).filter (cellVisible m imgs layer) := by
  simpa [processLayer] using
    @foldl_emits_proj m c imgs li lOff layer (cells m.width m.height) ⟨[], 0, []⟩

theorem goLayers_emits (m : TmxMap) (c : Config) (imgs : List (String × Atlas))
    (ls : List Layer) (li : Nat) (lOff : ℚ)
    (acc : List (String × List (String × TexObject))) :
    (goLayers m c imgs ls li lOff acc).emits = layersEmits m c imgs ls li lOff := by
  induction ls generalizing li lOff acc with
  | nil => rfl
  | cons layer rest ih => simp [goLayers, layersEmits, ih]

theorem load_emits (m : TmxMap) (c : Option Config) (imgs : List (String × Atlas)) :
    (load m c imgs).emits = layersEmits m (c.getD defaultConfig) imgs m.layers 0 0 :=
  goLayers_emits m (c.getD defaultConfig) imgs m.layers 0 0 []

theorem processLayer_mem_ok {m : TmxMap} {c : Config} {imgs : List (String × Atlas)}
    {li : Nat} {lOff : ℚ} {layer : Layer} {e : TileEmit}
    (he : e ∈ (processLayer m c imgs li lOff layer).emits) :
    ∃ k, emitOK m c imgs li lOff k e := by
  obtain ⟨k, hk⟩ := List.mem_iff_getElem?.mp he
  exact ⟨k, (processLayer_inv m c imgs li lOff layer).2 k e hk⟩

theorem layersEmits_mem {m : TmxMap} {c : Config} {imgs : List (String × Atlas)} :
    ∀ {ls : List Layer} {li : Nat} {lOff : ℚ} {e : TileEmit},
      e ∈ layersEmits m c imgs ls li lOff →
      ∃ j, ∃ hj : j < ls.length,
        e ∈ (processLayer m c imgs (li + j) (lOff - (j : ℚ) * c.layerOffset)
              (ls.get ⟨j, hj⟩)).emits := by
  intro ls
  induction ls with
  | nil => intro li lOff e he; simp [layersEmits] at he
  | cons layer rest ih =>
    intro li lOff e he
    rw [layersEmits, List.mem_append] at he
    rcases he with h | h
    · refine ⟨0, by simp, ?_⟩
      simpa using h
    · obtain ⟨j, hj, hmem⟩ := ih h
      refine ⟨j + 1, by simpa using Nat.succ_lt_succ hj, ?_⟩
      have e1 : li + (j + 1) = li + 1 + j := by omega
      have e2 : lOff - ((j + 1 : ℕ) : ℚ) * c.layerOffset
          = lOff - c.layerOffset - (j : ℚ) * c.layerOffset := by
        push_cast
        ring
      rw [e1, e2]
      simpa using hmem

theorem mem_layersEmits_layer {m : TmxMap} {c : Config} {imgs : List (String × Atlas)}
    {ls : List Layer} {li : Nat} {lOff : ℚ} {e : TileEmit}
    (he : e ∈ layersEmits m c imgs ls li lOff) :
    li ≤ e.layer ∧ e.layer < li + ls.length := by
  obtain ⟨j, hj, hmem⟩ := layersEmits_mem he
  obtain ⟨k, hok⟩ := processLayer_mem_ok hmem
  have : e.layer = li + j := hok.1
  omega

theorem layersEmits_filter {m : TmxMap} {c : Config} {imgs : List (String × Atlas)} :
    ∀ (ls : List Layer) (li : Nat) (lOff : ℚ) (j : Nat) (hj : j < ls.length),
      (layersEmits m c imgs ls li lOff).filter (fun e => e.layer = li + j)
        = (processLayer m c imgs (li + j) (lOff - (j : ℚ) * c.layerOffset)
            (ls.get ⟨j, hj⟩)).emits := by
  intro ls
  induction ls with
  | nil => intro li lOff j hj; simp at hj
  | cons layer rest ih =>
    intro li lOff j hj
    rw [layersEmits, List.filter_append]
    cases j with
    | zero =>
      have hfirst : (processLayer m c imgs li lOff layer).emits.filter
          (fun e => e.layer = li + 0) = (processLayer m c imgs li lOff layer).emits := by
        refine List.filter_eq_self.mpr ?_
        intro e he
        obtain ⟨k, hok⟩ := processLayer_mem_ok he
        simp [hok.1]
      have hrest : (layersEmits m c imgs rest (li + 1) (lOff - c.layerOffset)).filter
          (fun e => e.layer = li + 0) = [] := by
        refine List.filter_eq_nil_iff.mpr ?_
        intro e he
        have := mem_layersEmits_layer he
        simp only [decide_eq_true_eq]
        omega
      rw [hfirst, hrest]
      simp
    | succ j' =>
      have hfirst : (processLayer m c imgs li lOff layer).emits.filter
          (fun e => e.layer = li + (j' + 1)) = [] := by
        refine List.filter_eq_nil_iff.mpr ?_
        intro e he
        obtain ⟨k, hok⟩ := processLayer_mem_ok he
        simp only [decide_eq_true_eq, hok.1]
        omega
      have hj' : j' < rest.length := by simpa using Nat.lt_of_succ_lt_succ hj
      have := ih (li + 1) (lOff - c.layerOffset) j' hj'
      have e1 : li + 1 + j' = li + (j' + 1) := by omega
      have e2 : lOff - c.layerOffset - (j' : ℚ) * c.layerOffset
          = lOff - ((j' + 1 : ℕ) : ℚ) * c.layerOffset := by
        push_cast
        ring
      rw [e1, e2] at this
      rw [hfirst, this]
      simp

theorem load_layerEmits (m : TmxMap) (c : Option Config) (imgs : List (String × Atlas))
    (li : Nat) (hli : li < m.layers.length) :
    layerEmits (load m c imgs) li
      = (processLayer m (c.getD defaultConfig) imgs li
          (-(li : ℚ) * (c.getD defaultConfig).layerOffset)
          (m.layers.get ⟨li, hli⟩)).emits := by
  have h := @layersEmits_filter m (c.getD defaultConfig) imgs m.layers 0 0 li hli
  rw [layerEmits, load_emits]
  simpa using h

theorem pickTileset_result (gid : Nat) (best : Option Tileset) (ts : Tileset) :
    pickTileset gid best ts = best ∨ pickTileset gid best ts = some ts := by
  unfold pickTileset
  by_cases h1 : ts.firstGid ≤ gidBase gid
  · cases best with
    | none => simp [h1]
    | some b =>
      by_cases h2 : b.firstGid ≤ ts.firstGid <;> simp [h1, h2]
  · simp [h1]

theorem foldl_pickTileset_mem (gid : Nat) :
    ∀ (l : List Tileset) (acc : Option Tileset) (ts : Tileset),
      l.foldl (pickTileset gid) acc = some ts → acc = some ts ∨ ts ∈ l := by
  intro l
  induction l with
  | nil => intro acc ts h; exact Or.inl h
  | cons x rest ih =>
    intro acc ts h
    rcases ih (pickTileset gid acc x) ts h with h1 | h2
    · rcases pickTileset_result gid acc x with h3 | h3
      · exact Or.inl (h3 ▸ h1)
      · rw [h1] at h3
        have hx : ts = x := by injection h3
        subst hx
        exact Or.inr (List.mem_cons_self _ _)
    · exact Or.inr (List.mem_cons_of_mem _ h2)

theorem findTileset_mem {tilesets : List Tileset} {gid : Nat} {ts : Tileset}
    (h : findTileset tilesets gid = some ts) : ts ∈ tilesets := by
  rcases foldl_pickTileset_mem gid tilesets none ts h with h1 | h2
  · cases h1
  · exact h2

theorem cellStep_skip_of_no_image {m : TmxMap} {c : Config} {imgs : List (String × Atlas)}
    {li : Nat} {lOff : ℚ} {layer : Layer}
    (hno : ∀ ts ∈ m.tilesets, lookupA imgs ts.imageSource = none)
    (st : LayerState) (xy : Coord) :
    cellStep m c imgs li lOff layer st xy = st := by
  rcases cellStep_cases m c imgs li lOff layer st xy with
    ⟨heq, _⟩ | ⟨gid, ts, h1, h2, h3, _⟩
  · exact heq
  · exfalso
    rw [hno ts (findTileset_mem h2)] at h3
    simp at h3

theorem processLayer_of_no_image {m : TmxMap} {c : Config} {imgs : List (String × Atlas)}
    {li : Nat} {lOff : ℚ} {layer : Layer}
    (hno : ∀ ts ∈ m.tilesets, lookupA imgs ts.imageSource = none) :
    processLayer m c imgs li lOff layer = ⟨[], 0, []⟩ := by
  unfold processLayer
  have H : ∀ (cl : List Coord) (st : LayerState),
      cl.foldl (cellStep m c imgs li lOff layer) st = st := by
    intro cl
    induction cl with
    | nil => intro st; rfl
    | cons xy rest ih =>
      intro st
      rw [List.foldl_cons, cellStep_skip_of_no_image hno st xy]
      exact ih st
  exact H _ _

theorem goLayers_layers_empty {m : TmxMap} {c : Config} {imgs : List (String × Atlas)}
    (hno : ∀ ts ∈ m.tilesets, lookupA imgs ts.imageSource = none) :
    ∀ (ls : List Layer) (li : Nat) (lOff : ℚ)
      (acc : List (String × List (String × TexObject))),
      (∀ p ∈ acc, p.2 = ([] : List (String × TexObject))) →
      ∀ p ∈ (goLayers m c imgs ls li lOff acc).layers, p.2 = [] := by
  intro ls
  induction ls with
  | nil => intro li lOff acc hacc p hp; exact hacc p hp
  | cons layer rest ih =>
    intro li lOff acc hacc p hp
    simp only [goLayers] at hp
    refine ih (li + 1) (lOff - c.layerOffset) _ ?_ p hp
    intro q hq
    rcases mem_updateAssoc hq with h | h
    · rw [h, processLayer_of_no_image hno]
    · exact hacc q h

theorem lookupA_updateAssoc_ne {α β : Type} [DecidableEq α]
    (l : List (α × β)) (k : α) (v : β) (k2 : α) (h : k2 ≠ k) :
    lookupA (updateAssoc l k v) k2 = lookupA l k2 := by
  induction l with
  | nil =>
    have hne : ¬k = k2 := fun hk => h hk.symm
    simp [updateAssoc, lookupA, hne]
  | cons p rest ih =>
    by_cases h1 : p.1 = k
    · have hne : ¬p.1 = k2 := by
        rw [h1]
        exact fun hk => h hk.symm
      have hne2 : ¬k = k2 := fun hk => h hk.symm
      simp [updateAssoc, if_pos h1, lookupA, hne, hne2]
    · simp only [updateAssoc, if_neg h1]
      by_cases h2 : p.1 = k2 <;> simp [lookupA, h2, ih]

theorem goLayers_lookup (m : TmxMap) (c : Config) (imgs : List (String × Atlas))
    (name : String) :
    ∀ (ls : List Layer) (li : Nat) (lOff : ℚ)
      (acc : List (String × List (String × TexObject))),
      lookupA (goLayers m c imgs ls li lOff acc).layers name
        = match lastWithIdx name ls with
          | some (j, layer) =>
              some (processLayer m c imgs (li + j)
                (lOff - (j : ℚ) * c.layerOffset) layer).objs
          | none => lookupA acc name := by
  intro ls
  induction ls with
  | nil => intro li lOff acc; simp [goLayers, lastWithIdx]
  | cons layer rest ih =>
    intro li lOff acc
    simp only [goLayers]
    rw [ih (li + 1) (lOff - c.layerOffset)
      (updateAssoc acc layer.name (processLayer m c imgs li lOff layer).objs)]
    cases hl : lastWithIdx name rest with
    | some pr =>
      obtain ⟨j, l2⟩ := pr
      have e1 : li + 1 + j = li + (j + 1) := by omega
      have e2 : lOff - c.layerOffset - (j : ℚ) * c.layerOffset
          = lOff - ((j + 1 : ℕ) : ℚ) * c.layerOffset := by
        push_cast
        ring
      simp only [lastWithIdx, hl, e1, e2]
    | none =>
      by_cases hn : layer.name = name
      · subst hn
        simp only [lastWithIdx, hl, if_pos rfl, lookupA_updateAssoc_self]
        simp
      · have hne : name ≠ layer.name := fun hk => hn hk.symm
        simp only [lastWithIdx, hl, if_neg hn, lookupA_updateAssoc_ne _ _ _ _ hne]

theorem uniqKeys_nil {α β : Type} [DecidableEq α] : uniqKeys ([] : List (α × β)) := by
  intro k
  simp

theorem uniqKeys_tail {α β : Type} [DecidableEq α] {p : α × β} {l : List (α × β)}
    (h : uniqKeys (p :: l)) : uniqKeys l := by
  intro k
  have hk := h k
  rw [List.countP_cons] at hk
  omega

theorem countP_updateAssoc_ne {α β : Type} [DecidableEq α] (k k2 : α) (v : β)
    (hne : k ≠ k2) :
    ∀ l : List (α × β),
      (updateAssoc l k v).countP (fun p => p.1 = k2)
        = l.countP (fun p => p.1 = k2) := by
  intro l
  induction l with
  | nil => simp [updateAssoc, List.countP_cons, hne]
  | cons p rest ih =>
    by_cases h1 : p.1 = k
    · have hp : ¬p.1 = k2 := by
        rw [h1]
        exact hne
      simp [updateAssoc, h1, List.countP_cons, hp, hne]
    · simp [updateAssoc, h1, List.countP_cons, ih]

theorem uniqKeys_updateAssoc {α β : Type} [DecidableEq α] (k : α) (v : β) :
    ∀ l : List (α × β), uniqKeys l → uniqKeys (updateAssoc l k v) := by
  intro l
  induction l with
  | nil =>
    intro _ k2
    by_cases h2 : k = k2 <;> simp [updateAssoc, List.countP_cons, h2]
  | cons p rest ih =>
    intro h k2
    by_cases h1 : p.1 = k
    · have hk := h k2
      rw [List.countP_cons] at hk
      simp only [updateAssoc, if_pos h1]
      rw [List.countP_cons]
      by_cases h2 : p.1 = k2
      · have hkk : k = k2 := h1 ▸ h2
        simp only [h2, hkk, decide_eq_true_eq] at hk ⊢
        simpa using hk
      · have hkk : ¬k = k2 := fun hx => h2 (by rw [h1, hx])
        simp only [h2, hkk, decide_eq_true_eq] at hk ⊢
        simpa using hk
    · simp only [updateAssoc, if_neg h1]
      rw [List.countP_cons]
      by_cases h2 : p.1 = k2
      · have hne : k ≠ k2 := fun hkk => h1 (by rw [hkk, h2])
        have hk := h k2
        rw [List.countP_cons] at hk
        rw [countP_updateAssoc_ne k k2 v hne rest]
        exact hk
      · have ht := ih (uniqKeys_tail h) k2
        simp only [h2, decide_eq_true_eq]
        simpa [h2] using ht

theorem countP_eq_one_of_lookupA {α β : Type} [DecidableEq α] :
    ∀ (l : List (α × β)) (k : α), uniqKeys l → (lookupA l k).isSome →
      l.countP (fun p => p.1 = k) = 1 := by
  intro l
  induction l with
  | nil =>
    intro k _ hs
    simp [lookupA] at hs
  | cons p rest ih =>
    intro k hu hs
    rw [List.countP_cons]
    by_cases h1 : p.1 = k
    · have hk := hu k
      rw [List.countP_cons] at hk
      simp only [h1, decide_eq_true_eq] at hk ⊢
      simp only [if_pos trivial] at hk ⊢
      omega
    · simp only [lookupA, if_neg h1] at hs
      have := ih k (uniqKeys_tail hu) hs
      simp only [h1, decide_eq_true_eq]
      simpa [h1] using this

theorem goLayers_uniq (m : TmxMap) (c : Config) (imgs : List (String × Atlas)) :
    ∀ (ls : List Layer) (li : Nat) (lOff : ℚ)
      (acc : List (String × List (String × TexObject))),
      uniqKeys acc → uniqKeys (goLayers m c imgs ls li lOff acc).layers := by
  intro ls
  induction ls with
  | nil => intro li lOff acc h; exact h
  | cons layer rest ih =>
    intro li lOff acc h
    exact ih (li + 1) (lOff - c.layerOffset) _
      (uniqKeys_updateAssoc layer.name (processLayer m c imgs li lOff layer).objs acc h)

theorem parsePair_isSome (p : List Char) :
    (parsePair p).isSome = true ↔ (splitChar ',' (trimChars p)).length = 2 := by
  unfold parsePair
  rcases h : splitChar ',' (trimChars p) with _ | ⟨a, _ | ⟨b, _ | ⟨c, t⟩⟩⟩ <;> simp

theorem load_layerEmits_empty (m : TmxMap) (c : Option Config)
    (imgs : List (String × Atlas)) (li : Nat) (hli : m.layers.length ≤ li) :
    layerEmits (load m c imgs) li = [] := by
  rw [layerEmits, load_emits]
  refine List.filter_eq_nil_iff.mpr ?_
  intro e he
  have hb := mem_layersEmits_layer he
  simp only [decide_eq_true_eq]
  omega

theorem load_mem_emitOK (m : TmxMap) (c : Config) (imgs : List (String × Atlas))
    {e : TileEmit} (he : e ∈ (load m (some c) imgs).emits) :
    ∃ k, emitOK m c imgs e.layer (-(e.layer : ℚ) * c.layerOffset) k e := by
  rw [load_emits] at he
  simp only [Option.getD_some] at he
  obtain ⟨j, hj, hmem⟩ := layersEmits_mem he
  obtain ⟨k, hok⟩ := processLayer_mem_ok hmem
  have hl : e.layer = 0 + j := hok.1
  have h0 : 0 + j = e.layer := hl.symm
  have hq : (0 : ℚ) - (j : ℚ) * c.layerOffset = -(e.layer : ℚ) * c.layerOffset := by
    rw [hl]
    push_cast
    ring
  rw [h0, hq] at hok
  exact ⟨k, hok⟩

/-- C1: `appendCard` insets the vertical UV edges by `1/atlasWidth`, not
`1/atlasHeight` (`halfTexUnitY := 1.0 / w` in the source): for the quad
of atlas rect (0,0)–(32,32) inside a 64×32 atlas the first UV pair is
(1/64, 1/64) — its vertical component is inset by 1/64 = 1/atlasWidth,
while an inset of 1/atlasHeight would put it at 0/32 + 1/32 ≠ 1/64. -/
theorem appendCard_vertical_inset_uses_atlas_width :
    (appendCard ⟨[], []⟩ (-16) 16 (-16) 16 0 ⟨0, 0, 32, 32⟩ ⟨0, 0, 64, 32⟩).texcoords.head?
      = some ⟨1/64, 1/64⟩
    ∧ (0 : ℚ)/32 + 1/32 ≠ 1/64 := by
  constructor
  · simp [appendCard, RectI.dX, RectI.dY]
  · norm_num

/-- C5: every `appendCard` call appends exactly 6 vertices and exactly 6
UV coordinates to the target mesh (so UV entries pair 1:1 with position
vertices in emission order whenever they were paired before), and every
grid cell the compiler does not skip grows the owning batch's vertex
count by exactly 6 (the in-place transform of the six new vertices
preserves the count). -/
theorem appendCard_six_vertices_six_uvs :
    (∀ (msh : Mesh) (l r b t depth : ℚ) (rect tex : RectI),
        (appendCard msh l r b t depth rect tex).vertices.length = msh.vertices.length + 6
      ∧ (appendCard msh l r b t depth rect tex).texcoords.length = msh.texcoords.length + 6
      ∧ (msh.texcoords.length = msh.vertices.length →
          (appendCard msh l r b t depth rect tex).texcoords.length
            = (appendCard msh l r b t depth rect tex).vertices.length))
    ∧ (∀ (m : TmxMap) (c : Config) (imgs : List (String × Atlas)) (li : Nat) (lOff : ℚ)
        (layer : Layer) (st : LayerState) (xy : Coord),
        cellStep m c imgs li lOff layer st xy = st ∨
        ∃ k, vcount (cellStep m c imgs li lOff layer st xy).objs k
          = vcount st.objs k + 6) := by
  constructor
  · intro msh l r b t depth rect tex
    refine ⟨appendCard_vertices_length msh l r b t depth rect tex,
      appendCard_texcoords_length msh l r b t depth rect tex, ?_⟩
    intro hp
    rw [appendCard_vertices_length, appendCard_texcoords_length, hp]
  · intro m c imgs li lOff layer st xy
    rcases cellStep_cases m c imgs li lOff layer st xy with
      ⟨heq, _⟩ | ⟨gid, ts, _, _, _, _, _, _, hv⟩
    · exact Or.inl heq
    · exact Or.inr ⟨ts.imageSource, hv⟩

/-- C3 counterexample: in a map with 32×32 map tiles but a 16×16-tile
tileset, the tile placed at cell (0,0) gets translation x-component
0·32 + 16/2 = 8 (half the TILESET tile width), not 0·32 + 32/2 = 16
(half the MAP tile width) as the claim states. -/
theorem load_translation_not_half_map_tile_width :
    ((load exMapC3 none exImgsC3).emits.map fun e => e.move.x) = [8]
    ∧ ¬((8 : ℚ) = 0 * 32 + 32 / 2) := by
  constructor
  · simp [load, goLayers, processLayer, cells, cellStep, exMapC3, exTilesetC3, exImgsC3,
      lookupA, findTileset, pickTileset, gidBase, moveVec, defaultConfig,
      List.range, List.range.loop]
    norm_num
  · norm_num

/-- C3 (amended): every placed tile's translation is x = gridX·(map tile
width) + (TILESET tile width)/2, vertical = layerOffset + tileOffset,
z = (map height − gridY)·(map tile height) − (TILESET tile height)/2; in
particular the 2×1 end-to-end example (where tileset and map tile sizes
agree at 32) centers its tile at x = 16, z = 16. -/
theorem load_translation_formula :
    (∀ (m : TmxMap) (c : Config) (imgs : List (String × Atlas)) (e : TileEmit),
        e ∈ (load m (some c) imgs).emits →
        e.move = ⟨(e.x : ℚ) * (m.tileWidth : ℚ) + (e.ts.width : ℚ) / 2,
                  e.lOff + e.tOff,
                  ((m.height : ℚ) - (e.y : ℚ)) * (m.tileHeight : ℚ) - (e.ts.height : ℚ) / 2⟩)
    ∧ ((load exMap32 none exImgs32).emits.map fun e => e.move) = [⟨16, 0, 16⟩] := by
  constructor
  · intro m c imgs e he
    obtain ⟨k, hok⟩ := load_mem_emitOK m c imgs he
    exact hok.2.2.2.1
  · simp [load, goLayers, processLayer, cells, cellStep, exMap32, exLayer32, exTileset32,
      exImgs32, lookupA, findTileset, pickTileset, gidBase, moveVec, defaultConfig,
      List.range, List.range.loop]
    norm_num

/-- C4: within one layer, each successively placed tile's vertical
coordinate equals the previous one's minus exactly `Config.TileOffset`
(strictly smaller whenever the offset is positive, as with the
defaults); every emitted tile's layer-base vertical offset is exactly
−(layer index)·`Config.LayerOffset`, so the first layer's base offset is
0 and each layer's base offset is the previous layer's minus exactly
`Config.LayerOffset` (strictly smaller whenever that offset is
positive).  The final two conjuncts instantiate the successive-tile case
on a concrete two-tile layer, showing the hypotheses are satisfiable. -/
theorem load_offset_monotonicity :
    ∀ (m : TmxMap) (c : Config) (imgs : List (String × Atlas)) (li : Nat),
      (∀ (k : Nat) (e1 e2 : TileEmit),
          (layerEmits (load m (some c) imgs) li)[k]? = some e1 →
          (layerEmits (load m (some c) imgs) li)[k + 1]? = some e2 →
          e2.move.y = e1.move.y - c.tileOffset
          ∧ (0 < c.tileOffset → e2.move.y < e1.move.y))
      ∧ (∀ e : TileEmit, e ∈ (load m (some c) imgs).emits →
          e.lOff = -(e.layer : ℚ) * c.layerOffset)
      ∧ -((li + 1 : ℕ) : ℚ) * c.layerOffset = -(li : ℚ) * c.layerOffset - c.layerOffset
      ∧ (0 < c.layerOffset →
          -((li + 1 : ℕ) : ℚ) * c.layerOffset < -(li : ℚ) * c.layerOffset)
      ∧ -((0 : ℕ) : ℚ) * c.layerOffset = 0
      ∧ (layerEmits (load exMapC4 (some defaultConfig) exImgs32) 0)[0]? = some emit32
      ∧ (layerEmits (load exMapC4 (some defaultConfig) exImgs32) 0)[1]? = some emitC4b := by
  intro m c imgs li
  refine ⟨?_, ?_, by push_cast; ring, ?_, by norm_num, ?_, ?_⟩
  · intro k e1 e2 h1 h2
    by_cases hli : li < m.layers.length
    · rw [load_layerEmits m (some c) imgs li hli] at h1 h2
      simp only [Option.getD_some] at h1 h2
      have o1 := (processLayer_inv m c imgs li (-(li : ℚ) * c.layerOffset)
        (m.layers.get ⟨li, hli⟩)).2 k e1 h1
      have o2 := (processLayer_inv m c imgs li (-(li : ℚ) * c.layerOffset)
        (m.layers.get ⟨li, hli⟩)).2 (k + 1) e2 h2
      have m1 : e1.move.y = e1.lOff + e1.tOff := by
        rw [o1.2.2.2.1]
        rfl
      have m2 : e2.move.y = e2.lOff + e2.tOff := by
        rw [o2.2.2.2.1]
        rfl
      rw [m1, m2, o1.2.1, o2.2.1, o1.2.2.1, o2.2.2.1]
      have expand : -(((k + 1 : ℕ)) : ℚ) * c.tileOffset
          = -(k : ℚ) * c.tileOffset - c.tileOffset := by
        push_cast
        ring
      rw [expand]
      constructor
      · ring
      · intro ht
        linarith
    · exfalso
      rw [load_layerEmits_empty m (some c) imgs li (Nat.le_of_not_lt hli)] at h1
      simp at h1
  · intro e he
    obtain ⟨k, hok⟩ := load_mem_emitOK m c imgs he
    exact hok.2.1
  · intro hlo
    have expand : -((li + 1 : ℕ) : ℚ) * c.layerOffset
        = -(li : ℚ) * c.layerOffset - c.layerOffset := by
      push_cast
      ring
    rw [expand]
    linarith
  · simp [layerEmits, load, goLayers, processLayer, cells, cellStep, exMapC4, exLayerC4,
      exTileset32, exImgs32, lookupA, findTileset, pickTileset, gidBase, moveVec,
      defaultConfig, List.range, List.range.loop, emit32]
    norm_num
  · simp [layerEmits, load, goLayers, processLayer, cells, cellStep, exMapC4, exLayerC4,
      exTileset32, exImgs32, lookupA, findTileset, pickTileset, gidBase, moveVec,
      defaultConfig, List.range, List.range.loop, emitC4b]
    norm_num

/-- C6: a tile whose owning tileset's atlas image was not supplied is
silently omitted — every emitted tile's atlas image is one the caller
supplied (and `Load` is a total function, so nothing fails); in the
two-tileset example where only `atlas.png` is supplied, the single layer
holds exactly the one batch for `atlas.png`, and the two emitted tiles
are exactly the cells whose GID resolves to the supplied tileset. -/
theorem load_missing_atlas_tolerance :
    (∀ (m : TmxMap) (c : Config) (imgs : List (String × Atlas)) (e : TileEmit),
        e ∈ (load m (some c) imgs).emits → (lookupA imgs e.img).isSome = true)
    ∧ ((load exMap6 none exImgs32).layers.map fun p => (p.1, p.2.map Prod.fst))
        = [("ground", ["atlas.png"])]
    ∧ (load exMap6 none exImgs32).emits.length = 2
    ∧ (exLayer6.tiles.countP fun p =>
        (findTileset exMap6.tilesets p.2).any fun ts => ts.imageSource = "atlas.png") = 2 := by
  refine ⟨?_, ?_, ?_, by decide⟩
  · intro m c imgs e he
    obtain ⟨k, hok⟩ := load_mem_emitOK m c imgs he
    exact hok.2.2.2.2.2.2
  · simp [load, goLayers, processLayer, cells, cellStep, exMap6, exLayer6, exTileset32,
      exTileset6b, exImgs32, lookupA, findTileset, pickTileset, gidBase, moveVec,
      defaultConfig, List.range, List.range.loop, updateAssoc]
  · simp [load, goLayers, processLayer, cells, cellStep, exMap6, exLayer6, exTileset32,
      exTileset6b, exImgs32, lookupA, findTileset, pickTileset, gidBase, moveVec,
      defaultConfig, List.range, List.range.loop, updateAssoc]

/-- C7 counterexample: a 1×1 map with one layer `ground` and a tileset
whose atlas image is not supplied yields a result with ONE layer entry
(`ground`, holding zero batches), not a mapping with zero layer
entries. -/
theorem load_no_images_keeps_layer_entry :
    (load exMap7 none []).layers = [("ground", [])]
    ∧ ([("ground", ([] : List (String × TexObject)))]
        : List (String × List (String × TexObject))) ≠ [] := by
  constructor
  · simp [load, goLayers, processLayer, cells, cellStep, exMap7, lookupA, findTileset,
      pickTileset, gidBase, defaultConfig, List.range, List.range.loop, updateAssoc]
  · simp

/-- C7 (amended): a map with no valid tilesets (no tileset has a
supplied atlas image) loads without error into a result whose every
layer entry holds zero batches, with no tile emitted — the outer mapping
still gets one entry per layer name. -/
theorem load_no_valid_tilesets_all_batches_empty :
    ∀ (m : TmxMap) (c : Config) (imgs : List (String × Atlas)),
      (∀ ts ∈ m.tilesets, lookupA imgs ts.imageSource = none) →
      (∀ p ∈ (load m (some c) imgs).layers, p.2 = ([] : List (String × TexObject)))
      ∧ (load m (some c) imgs).emits = [] := by
  intro m c imgs hno
  constructor
  · intro p hp
    exact goLayers_layers_empty hno m.layers 0 0 [] (by simp) p hp
  · have H : ∀ (ls : List Layer) (li : Nat) (lOff : ℚ),
        layersEmits m c imgs ls li lOff = [] := by
      intro ls
      induction ls with
      | nil => intro li lOff; rfl
      | cons layer rest ih =>
        intro li lOff
        rw [layersEmits, processLayer_of_no_image hno, ih]
        rfl
    rw [load_emits]
    simp only [Option.getD_some]
    exact H m.layers 0 0

/-- C7 witness: the amended claim applied to the concrete one-layer map
with no supplied images. -/
theorem load_no_valid_tilesets_all_batches_empty_witness :
    (load exMap7 (some defaultConfig) []).emits = [] :=
  (load_no_valid_tilesets_all_batches_empty exMap7 defaultConfig []
    (by intro ts hts; simp [lookupA])).2

/-- C9: `Load` is deterministic — as a pure function of the map, config
and image mapping its output is identical on identical inputs — and
within every layer the emitted tiles traverse exactly the visible cells
of `cells`, the fixed column-major raster enumeration (outer loop over
x, inner loop over y), in that order. -/
theorem load_deterministic_column_major :
    ∀ (m : TmxMap) (c : Option Config) (imgs : List (String × Atlas)),
      load m c imgs = load m c imgs
      ∧ ∀ (li : Nat) (hli : li < m.layers.length),
          (layerEmits (load m c imgs) li).map (fun e => Coord.mk e.x e.y)
            = (cells m.width m.height).filter
                (cellVisible m imgs (m.layers.get ⟨li, hli⟩)) := by
  intro m c imgs
  refine ⟨rfl, ?_⟩
  intro li hli
  rw [load_layerEmits m c imgs li hli, processLayer_emits_proj]

/-- C10: when several layers share one name, the returned mapping has
exactly one entry for that name, and it holds the batches of the LAST
such layer in map order (compiled at that layer's own index and layer
offset); earlier same-named layers' batches are overwritten. -/
theorem load_duplicate_layer_names_last_wins :
    ∀ (m : TmxMap) (c : Config) (imgs : List (String × Atlas)) (name : String)
      (j : Nat) (layer : Layer),
      lastWithIdx name m.layers = some (j, layer) →
      lookupA (load m (some c) imgs).layers name
        = some (processLayer m c imgs j (-(j : ℚ) * c.layerOffset) layer).objs
      ∧ (load m (some c) imgs).layers.countP (fun p => p.1 = name) = 1 := by
  intro m c imgs name j layer hlast
  have hl := goLayers_lookup m c imgs name m.layers 0 0 []
  rw [hlast] at hl
  have hl2 : lookupA (load m (some c) imgs).layers name
      = some (processLayer m c imgs j (-(j : ℚ) * c.layerOffset) layer).objs := by
    have hz : (0 : ℚ) - (j : ℚ) * c.layerOffset = -(j : ℚ) * c.layerOffset := by ring
    simpa [hz] using hl
  refine ⟨hl2, ?_⟩
  apply countP_eq_one_of_lookupA
  · exact goLayers_uniq m c imgs m.layers 0 0 [] uniqKeys_nil
  · rw [hl2]
    rfl

/-- C10 witness: on the map with two layers both named `dup`, the
returned entry for `dup` is the second (empty) layer's batch map. -/
theorem load_duplicate_layer_names_last_wins_witness :
    lookupA (load exMap10 (some defaultConfig) exImgs32).layers "dup"
      = some (processLayer exMap10 defaultConfig exImgs32 1
          (-((1 : ℕ) : ℚ) * defaultConfig.layerOffset) exLayer10b).objs :=
  (load_duplicate_layer_names_last_wins exMap10 defaultConfig exImgs32 "dup" 1 exLayer10b
    (by decide)).1

/-- C8 counterexample: the point list `"a,b"` has one pair whose two
coordinates are non-numeric; the parser does NOT drop it — `Atoi`'s
error is discarded and the zero-valued point (0,0) is kept. -/
theorem toPoints_keeps_malformed_pair :
    toPoints "a,b" = [⟨0, 0⟩] ∧ ([(⟨0, 0⟩ : Point)] : List Point) ≠ [] := by
  constructor
  · decide
  · simp

/-- C8 (amended): a pair of the point list is dropped exactly when its
trimmed text does not split on ',' into exactly two fields
(`len(xy) == 2` in the source); a kept pair with non-numeric coordinate
text is retained with 0 substituted for each unparsable coordinate, and
the list as a whole still parses — illustrated on `"1,2 3 4,x 5,6"`,
where the one-field pair `"3"` is dropped but `"4,x"` is kept as
(4, 0). -/
theorem toPoints_drop_criterion :
    (∀ data : String,
        (toPoints data).length
          = (splitChar ' ' data.data).countP
              (fun pair => (splitChar ',' (trimChars pair)).length = 2))
    ∧ toPoints "1,2 3 4,x 5,6" = [⟨1, 2⟩, ⟨4, 0⟩, ⟨5, 6⟩] := by
  constructor
  · intro data
    unfold toPoints
    generalize splitChar ' ' data.data = l
    induction l with
    | nil => simp
    | cons p rest ih =>
      rw [List.filterMap_cons, List.countP_cons]
      cases hp : parsePair p with
      | none =>
        have hlen : ¬(splitChar ',' (trimChars p)).length = 2 := by
          rw [← parsePair_isSome]
          simp [hp]
        simp [ih, hlen]
      | some pt =>
        have hlen : (splitChar ',' (trimChars p)).length = 2 := by
          rw [← parsePair_isSome]
          simp [hp]
        simp [ih, hlen]
  · decide
